import Mathlib

/-!
Verification of the marcus markdown API test runner (Go sources
`parser.go`, `http.go`, `main.go`; struct declarations from the
repository's types file).  Strings are modelled as `List Char` and Go
maps as association lists.  Machine integers are modelled as `Nat`
(`time.Duration` as nanoseconds); the repository's parsers only ever
produce non-negative values for the modelled fields.
-/

namespace Marcus

/-- Strings are modelled as lists of characters, matching Go's byte/rune
slices closely enough for the ASCII fragment the tool manipulates. -/
abbrev Str := List Char

/-- Convert a Lean string literal into the model representation. -/
def lit (s : String) : Str := s.data

/-- Character class of Go's `unicode.IsSpace` restricted to ASCII, used by
`strings.TrimSpace`.  (Non-ASCII Unicode space code points are outside the
embedding.) -/
def isGoSpace (c : Char) : Bool :=
  c = ' ' || c = '\t' || c = '\n' || c = '\x0b' || c = '\x0c' || c = '\r'

/-- Character class of Go's regexp `\s`, which is `[\t\n\f\r ]` (it does
not include vertical tab). -/
def isRegexSpace (c : Char) : Bool :=
  c = ' ' || c = '\t' || c = '\n' || c = '\x0c' || c = '\r'

/-- Go `strings.TrimSpace` (ASCII fragment): drop leading and trailing
whitespace. -/
def trimSpace (s : Str) : Str :=
  ((s.dropWhile isGoSpace).reverse.dropWhile isGoSpace).reverse

/-- Go `strings.Split(s, sep)` for a one-character separator (the sources
only split on `"\n"`, `"."`, `"|"` and `"="`).  Always returns at least
one (possibly empty) piece, like Go. -/
def splitOnChar (sep : Char) : Str → List Str
  | [] => [[]]
  | c :: t =>
    match splitOnChar sep t with
    | [] => [[]]
    | h :: r => if c = sep then [] :: h :: r else (c :: h) :: r

/-- Go `strings.Join(parts, sep)` for a one-character separator. -/
def joinChar (sep : Char) : List Str → Str
  | [] => []
  | [x] => x
  | x :: y :: r => x ++ sep :: joinChar sep (y :: r)

/-- Go `strings.SplitN(s, sep, 2)` for a one-character separator, returned
as the two pieces when the separator occurs (`none` when it does not). -/
def splitN2 (sep : Char) (s : Str) : Option (Str × Str) :=
  if s.any (· = sep) then
    some (s.takeWhile (· ≠ sep), (s.dropWhile (· ≠ sep)).drop 1)
  else none

/-- Go `strings.TrimPrefix`. -/
def trimPrefix (pre s : Str) : Str :=
  if pre.isPrefixOf s then s.drop pre.length else s

/-- Go `strings.TrimSuffix`: removes one occurrence of the suffix when
present (`parser.go:91` relies on exactly this single-removal behaviour). -/
def trimSuffix (suf s : Str) : Str :=
  if suf.isSuffixOf s then s.take (s.length - suf.length) else s

/-- Decimal rendering of a natural number, as Go `fmt` renders the
non-negative integers occurring in the modelled fragment. -/
def natToStr (n : Nat) : Str := (Nat.repr n).data

/-- Value of a digit character. -/
def digitVal (c : Char) : Nat := c.toNat - '0'.toNat

/-- Numeric value of a non-empty all-digit string (the core of
`strconv.Atoi` on the strings produced by the parsers' `(\d+)` capture
groups; machine overflow is outside the embedding). -/
def natOfDigits (s : Str) : Nat := s.foldl (fun acc c => 10 * acc + digitVal c) 0

/-- Go `strconv.Atoi` on the modelled (non-negative, all-digit) inputs:
succeeds exactly on non-empty digit strings. -/
def parseNat? (s : Str) : Option Nat :=
  if s ≠ [] && s.all (·.isDigit) then some (natOfDigits s) else none

/-- ASCII lowering, for the parsers' `(?i)` case-insensitive matches. -/
def lowerCh (c : Char) : Char := c.toLower

/-- Case-insensitive equality of strings (`strings.EqualFold`, ASCII
fragment; also used for the regexps' `(?i)` literals). -/
def ciEq (a b : Str) : Bool := a.map lowerCh = b.map lowerCh

/-- Case-insensitively strip a literal prefix, returning the remainder. -/
def ciStripPrefix (pre s : Str) : Option Str :=
  if ciEq (s.take pre.length) pre && pre.length ≤ s.length
  then some (s.drop pre.length) else none

/-- Fuelled scanner underlying `replaceCore`; the fuel only serves to make
the left-to-right scan structurally recursive (and hence kernel
computable), it never runs out when seeded with the input length. -/
def replaceCoreF (p r : Str) : Nat → Str → Str
  | _, [] => []
  | 0, s => s
  | fuel + 1, c :: t =>
    if p.isPrefixOf (c :: t) then r ++ replaceCoreF p r fuel (t.drop (p.length - 1))
    else c :: replaceCoreF p r fuel t

/-- One replacement pass of Go `strings.ReplaceAll` for a non-empty
pattern: scan left to right, replacing each (non-overlapping, leftmost)
occurrence of `p` by `r`.  The `p = []` case is dispatched separately in
`replaceAll`. -/
def replaceCore (p r s : Str) : Str := replaceCoreF p r s.length s

/-- Go `strings.ReplaceAll`.  With an empty pattern Go inserts the
replacement before every character and after the last one. -/
def replaceAll (s p r : Str) : Str :=
  match p with
  | [] => r ++ s.foldr (fun c acc => c :: r ++ acc) []
  | _ :: _ => replaceCore p r s

example : replaceAll (lit "a--b--") (lit "--") (lit "+") = lit "a+b+" := by decide
example : trimSpace (lit "  hi \n") = lit "hi" := by decide
example : splitOnChar '.' (lit "a..b") = [lit "a", [], lit "b"] := by decide
example : joinChar '\n' [lit "a", [], lit "b"] = lit "a\n\nb" := by decide

/-!
JSON values, as produced by `encoding/json.Unmarshal` into
`interface{}`/`map[string]interface{}`.  Numbers are modelled as the
integers (the fragment exercised by the repository's fixtures); float
rendering and fractional literals are outside the embedding.
-/

/-- A decoded JSON value. -/
inductive Json where
  | null : Json
  | bool (b : Bool) : Json
  | num (n : Int) : Json
  | str (s : Str) : Json
  | arr (xs : List Json) : Json
  | obj (members : List (Str × Json)) : Json

mutual

/-- Decidable equality on JSON values (spelled out because the deriving
handler does not support nested inductives). -/
def Json.decEq : (a b : Json) → Decidable (a = b)
  | .null, .null => isTrue rfl
  | .bool a, .bool b =>
    if h : a = b then isTrue (h ▸ rfl) else isFalse (fun e => h (Json.bool.inj e))
  | .num a, .num b =>
    if h : a = b then isTrue (h ▸ rfl) else isFalse (fun e => h (Json.num.inj e))
  | .str a, .str b =>
    if h : a = b then isTrue (h ▸ rfl) else isFalse (fun e => h (Json.str.inj e))
  | .arr a, .arr b =>
    match Json.decEqL a b with
    | isTrue h => isTrue (h ▸ rfl)
    | isFalse n => isFalse (fun e => n (Json.arr.inj e))
  | .obj a, .obj b =>
    match Json.decEqO a b with
    | isTrue h => isTrue (h ▸ rfl)
    | isFalse n => isFalse (fun e => n (Json.obj.inj e))
  | .null, .bool _ => isFalse nofun
  | .null, .num _ => isFalse nofun
  | .null, .str _ => isFalse nofun
  | .null, .arr _ => isFalse nofun
  | .null, .obj _ => isFalse nofun
  | .bool _, .null => isFalse nofun
  | .bool _, .num _ => isFalse nofun
  | .bool _, .str _ => isFalse nofun
  | .bool _, .arr _ => isFalse nofun
  | .bool _, .obj _ => isFalse nofun
  | .num _, .null => isFalse nofun
  | .num _, .bool _ => isFalse nofun
  | .num _, .str _ => isFalse nofun
  | .num _, .arr _ => isFalse nofun
  | .num _, .obj _ => isFalse nofun
  | .str _, .null => isFalse nofun
  | .str _, .bool _ => isFalse nofun
  | .str _, .num _ => isFalse nofun
  | .str _, .arr _ => isFalse nofun
  | .str _, .obj _ => isFalse nofun
  | .arr _, .null => isFalse nofun
  | .arr _, .bool _ => isFalse nofun
  | .arr _, .num _ => isFalse nofun
  | .arr _, .str _ => isFalse nofun
  | .arr _, .obj _ => isFalse nofun
  | .obj _, .null => isFalse nofun
  | .obj _, .bool _ => isFalse nofun
  | .obj _, .num _ => isFalse nofun
  | .obj _, .str _ => isFalse nofun
  | .obj _, .arr _ => isFalse nofun

/-- Decidable equality on JSON arrays. -/
def Json.decEqL : (a b : List Json) → Decidable (a = b)
  | [], [] => isTrue rfl
  | [], _ :: _ => isFalse nofun
  | _ :: _, [] => isFalse nofun
  | x :: xs, y :: ys =>
    match Json.decEq x y with
    | isFalse n => isFalse (fun e => n (List.cons.inj e).1)
    | isTrue h1 =>
      match Json.decEqL xs ys with
      | isTrue h2 => isTrue (by rw [h1, h2])
      | isFalse n => isFalse (fun e => n (List.cons.inj e).2)

/-- Decidable equality on JSON object member lists. -/
def Json.decEqO : (a b : List (Str × Json)) → Decidable (a = b)
  | [], [] => isTrue rfl
  | [], _ :: _ => isFalse nofun
  | _ :: _, [] => isFalse nofun
  | (k1, v1) :: xs, (k2, v2) :: ys =>
    if hk : k1 = k2 then
      match Json.decEq v1 v2 with
      | isFalse n => isFalse (fun e => n (congrArg Prod.snd (List.cons.inj e).1))
      | isTrue h1 =>
        match Json.decEqO xs ys with
        | isTrue h2 => isTrue (by rw [hk, h1, h2])
        | isFalse n => isFalse (fun e => n (List.cons.inj e).2)
    else isFalse (fun e => hk (congrArg Prod.fst (List.cons.inj e).1))

end

instance : DecidableEq Json := Json.decEq

/-- A decoded JSON object (Go `map[string]interface{}`), as an association
list with the usual unique-key invariant. -/
abbrev JObj := List (Str × Json)

/-- Go map lookup on the association-list model. -/
def lookupJ (members : JObj) (k : Str) : Option Json :=
  match members with
  | [] => none
  | (k2, v) :: rest => if k2 = k then some v else lookupJ rest k

/-- Association-list update with Go map-assignment semantics: overwrite the
existing binding or append a new one. -/
def setAssoc {α : Type} (m : List (Str × α)) (k : Str) (v : α) : List (Str × α) :=
  match m with
  | [] => [(k, v)]
  | (k2, v2) :: rest => if k2 = k then (k, v) :: rest else (k2, v2) :: setAssoc rest k v

mutual

/-- Rendering with Go's `fmt.Sprintf("%v", value)` on the modelled values
(integral numbers, booleans, strings, nil; composites rendered in Go's
bracketed style, map keys in insertion order rather than sorted — the
claims never render composites). -/
def govFmt : Json → Str
  | .null => lit "<nil>"
  | .bool true => lit "true"
  | .bool false => lit "false"
  | .num n => (Int.repr n).data
  | .str s => s
  | .arr xs => '[' :: joinChar ' ' (govFmtL xs) ++ [']']
  | .obj ms => lit "map[" ++ joinChar ' ' (govFmtO ms) ++ [']']

/-- Rendering of the elements of a JSON array. -/
def govFmtL : List Json → List Str
  | [] => []
  | x :: xs => govFmt x :: govFmtL xs

/-- Rendering of the members of a JSON object. -/
def govFmtO : List (Str × Json) → List Str
  | [] => []
  | (k, v) :: ms => (k ++ ':' :: govFmt v) :: govFmtO ms

end

/-!
Data model (`Test`, `Assertion`, `SaveField`, `Defaults` from the
repository's type declarations; `RetryDelay` is `time.Duration` in
nanoseconds).
-/

/-- A single assertion to validate (`Assertion` struct). -/
structure Assertion where
  type : Str
  field : Str
  value : Str
deriving DecidableEq

/-- A field to save from the response (`SaveField` struct). -/
structure SaveField where
  field : Str
  variable_ : Str
deriving DecidableEq

/-- A single API test parsed from markdown (`Test` struct). -/
structure Test where
  name : Str
  method : Str
  url : Str
  headers : List (Str × Str)
  body : Str
  contentType : Str
  assertions : List Assertion
  saveFields : List SaveField
  waitForStatus : Nat
  waitForField : Str
  waitForValue : Str
  retryDelay : Nat
  retryMax : Nat
deriving DecidableEq

/-- The zero `Test` value seeded by `parseTestBlock` (`parser.go:124`),
before defaults are applied: name set, method `GET`, everything else
empty. -/
def Test.init (name : Str) : Test :=
  { name := name, method := lit "GET", url := [], headers := [], body := [],
    contentType := [], assertions := [], saveFields := [], waitForStatus := 0,
    waitForField := [], waitForValue := [], retryDelay := 0, retryMax := 0 }

/-- Default settings parsed from frontmatter (`Defaults` struct). -/
structure Defaults where
  root : Str
  headers : List (Str × Str)
deriving DecidableEq

/-- The variable store threaded between tests (Go
`map[string]interface{}`); Go's `nil` map is the empty list. -/
abbrev VarStore := List (Str × Json)

/-!
Frontmatter extraction (`parseFrontmatter`, `parser.go:46-119`).
-/

/-- Index of the first line at or after index 1 whose trimmed form is
`---` (the closing-delimiter scan of `parser.go:65-71`).  `i` is the index
of the head of `ls` in the full line list. -/
def findClosing (i : Nat) : List Str → Option Nat
  | [] => none
  | l :: rest =>
    if trimSpace l = lit "---" then some i else findClosing (i + 1) rest

/-- One step of the frontmatter body scan (`parser.go:78-114`): fold state
is the accumulated `Defaults` plus the `inHeaders` flag. -/
def fmLine (st : Defaults × Bool) (line : Str) : Defaults × Bool :=
  let (defaults, inHeaders) := st
  let trimmed := trimSpace line
  if trimmed = [] then st
  else if (lit "root:").isPrefixOf trimmed then
    let root := trimSuffix (lit "/") (trimSpace (trimPrefix (lit "root:") trimmed))
    ({ defaults with root := root }, false)
  else if trimmed = lit "headers:" then (defaults, true)
  else if inHeaders && ((lit "  ").isPrefixOf line || (lit "\t").isPrefixOf line) then
    match splitN2 ':' trimmed with
    | some (k, v) =>
      ({ defaults with
         headers := setAssoc defaults.headers (trimSpace k) (trimSpace v) }, inHeaders)
    | none => st
  else (defaults, false)

/-- Extract YAML-ish frontmatter from content (`parseFrontmatter`,
`parser.go:46-119`).  Returns the parsed defaults and the remaining
content.  Note that once the content is recognised as starting with the
delimiter it is replaced by its `TrimSpace`d form (`parser.go:57`), so a
malformed block yields the trimmed text, not the original bytes. -/
def parseFrontmatter (content : Str) : Defaults × Str :=
  let defaults : Defaults := { root := [], headers := [] }
  if ¬ (lit "---").isPrefixOf (trimSpace content) then (defaults, content)
  else
    let content := trimSpace content
    let lines := splitOnChar '\n' content
    if lines.length < 2 || trimSpace (lines.headD []) ≠ lit "---" then (defaults, content)
    else
      match findClosing 1 (lines.drop 1) with
      | none => (defaults, content)
      | some endIdx =>
        let body := (lines.take endIdx).drop 1
        let (defaults, _) := body.foldl fmLine (defaults, false)
        (defaults, joinChar '\n' (lines.drop (endIdx + 1)))

example :
    parseFrontmatter (lit "---\nroot: https://x/\nheaders:\n  Accept: a\n---\nBODY") =
      ({ root := lit "https://x", headers := [(lit "Accept", lit "a")] }, lit "BODY") := by
  decide

example :
    parseFrontmatter (lit "---\nroot: x\n") = ({ root := [], headers := [] }, lit "---\nroot: x") := by
  decide

/-!
Test block parsing (`parseTestBlock`, `parser.go:123-214`): default
headers, the request line, URL resolution against the frontmatter root,
and the option/header bullet scan.  The fenced body block and the
assertion/save sections parsed later in the function (`parser.go:216-252`)
are independent of the fields the claims concern and are not part of this
embedding.
-/

/-- Target resolution of `parser.go:150-161`: a path starting with `/`
joined to a configured root, an absolute URL used as-is, any other target
joined with a `/`, and otherwise the raw target passed through. -/
def resolveTarget (root target : Str) : Str :=
  if (lit "/").isPrefixOf target && root ≠ [] then root ++ target
  else if (lit "http://").isPrefixOf target || (lit "https://").isPrefixOf target then target
  else if root ≠ [] then root ++ '/' :: target
  else target

/-- Match one line against `^(GET|POST|PUT|PATCH|DELETE)\s+(\S+)`
(`parser.go:142`), returning the method and the raw target. -/
def matchHTTPLine (line : Str) : Option (Str × Str) :=
  let tryMethod (m : Str) : Option (Str × Str) :=
    if m.isPrefixOf line then
      let rest := line.drop m.length
      let sp := rest.takeWhile isRegexSpace
      let after := rest.dropWhile isRegexSpace
      let target := after.takeWhile (fun c => ¬ isRegexSpace c)
      if sp ≠ [] && target ≠ [] then some (m, target) else none
    else none
  match tryMethod (lit "GET") with
  | some r => some r
  | none => match tryMethod (lit "POST") with
    | some r => some r
    | none => match tryMethod (lit "PUT") with
      | some r => some r
      | none => match tryMethod (lit "PATCH") with
        | some r => some r
        | none => tryMethod (lit "DELETE")

/-- Match one line against `(?i)^-\s+Wait until status is (\d+)$`
(`parser.go:175`), returning the status code. -/
def matchWaitUntil (line : Str) : Option Nat :=
  match line with
  | '-' :: rest =>
    if (rest.takeWhile isRegexSpace) = [] then none
    else
      let body := rest.dropWhile isRegexSpace
      match ciStripPrefix (lit "wait until status is ") body with
      | some digits =>
        if digits ≠ [] && digits.all (·.isDigit) then some (natOfDigits digits) else none
      | none => none
  | _ => none

/-- Units table of `time.ParseDuration` (the `µs` spelling is outside the
ASCII embedding). -/
def durUnit (s : Str) : Option (Nat × Str) :=
  if (lit "ns").isPrefixOf s then some (1, s.drop 2)
  else if (lit "us").isPrefixOf s then some (1000, s.drop 2)
  else if (lit "ms").isPrefixOf s then some (1000000, s.drop 2)
  else if (lit "s").isPrefixOf s then some (1000000000, s.drop 1)
  else if (lit "m").isPrefixOf s then some (60000000000, s.drop 1)
  else if (lit "h").isPrefixOf s then some (3600000000000, s.drop 1)
  else none

/-- Fuelled component loop of `goParseDuration`. -/
def goParseDurationF : Nat → Str → Option Nat
  | _, [] => some 0
  | 0, _ => none
  | fuel + 1, s =>
    let digits := s.takeWhile (·.isDigit)
    if digits = [] then none
    else
      match durUnit (s.drop digits.length) with
      | some (mult, rest) =>
        match goParseDurationF fuel rest with
        | some n => some (natOfDigits digits * mult + n)
        | none => none
      | none => none

/-- Go `time.ParseDuration` on the modelled fragment: one or more
integral `<digits><unit>` components, or the literal `0`.  Signs,
fractional components and non-ASCII units are outside the embedding. -/
def goParseDuration (s : Str) : Option Nat :=
  if s = lit "0" then some 0
  else if s = [] then none
  else goParseDurationF s.length s

example : goParseDuration (lit "500ms") = some 500000000 := by decide
example : goParseDuration (lit "1h30m") = some 5400000000000 := by decide
example : goParseDuration (lit "2s ") = none := by decide

/-- Match one line against `(?i)^-\s+Retry (\d+) times every (.+)$`
(`parser.go:176`), returning the count and the raw duration text. -/
def matchRetry (line : Str) : Option (Nat × Str) :=
  match line with
  | '-' :: rest =>
    if (rest.takeWhile isRegexSpace) = [] then none
    else
      let body := rest.dropWhile isRegexSpace
      match ciStripPrefix (lit "retry ") body with
      | some afterRetry =>
        let digits := afterRetry.takeWhile (·.isDigit)
        if digits = [] then none
        else
          match ciStripPrefix (lit " times every ") (afterRetry.drop digits.length) with
          | some dur => if dur ≠ [] then some (natOfDigits digits, dur) else none
          | none => none
      | none => none
  | _ => none

/-- Match one line against `^-\s+([^:]+):\s*(.+)$` (`parser.go:174`),
returning the trimmed name and value: the name is everything up to the
first colon (at least one character beyond the mandatory whitespace), the
value everything after it (non-empty before trimming). -/
def matchHeader (line : Str) : Option (Str × Str) :=
  match line with
  | '-' :: rest =>
    match rest with
    | [] => none
    | c :: _ =>
      if ¬ isRegexSpace c then none
      else
        let nm := rest.takeWhile (· ≠ ':')
        if 2 ≤ nm.length && nm.length < rest.length then
          let vraw := rest.drop (nm.length + 1)
          if vraw ≠ [] then some (trimSpace nm, trimSpace vraw) else none
        else none
  | _ => none

example : matchHeader (lit "- Content-Type: application/json") =
    some (lit "Content-Type", lit "application/json") := by decide
example : matchHeader (lit "- Wait until field `a.b` equals `c`") = none := by decide
example : matchWaitUntil (lit "- wait UNTIL status is 201") = some 201 := by decide
example : matchRetry (lit "- Retry 5 times every 500ms") = some (5, lit "500ms") := by decide

/-- Record a header on a test, mirroring `parser.go:207-210` (and the
defaults loop `parser.go:131-136`): set the map entry and update the
content type when the name is `Content-Type` up to case. -/
def setHeader (t : Test) (k v : Str) : Test :=
  let t := { t with headers := setAssoc t.headers k v }
  if ciEq k (lit "Content-Type") then { t with contentType := v } else t

/-- The option/header bullet scan of `parser.go:178-214`: skip blank
lines, then classify each line as wait-for-status directive, retry
directive, or header assignment, stopping at the first line that matches
none of these. -/
def scanOptions (t : Test) : List Str → Test
  | [] => t
  | line :: rest =>
    if trimSpace line = [] then scanOptions t rest
    else
      match matchWaitUntil line with
      | some status => scanOptions { t with waitForStatus := status } rest
      | none =>
        match matchRetry line with
        | some (max, durText) =>
          let t := { t with retryMax := max }
          let t := match goParseDuration durText with
            | some d => { t with retryDelay := d }
            | none => t
          scanOptions t rest
        | none =>
          match matchHeader line with
          | some (k, v) => scanOptions (setHeader t k v) rest
          | none => t

/-- Locate the request line (`parser.go:145-166`), returning the updated
test and the lines after it. -/
def findMethodLine (t : Test) (root : Str) : List Str → Option (Test × List Str)
  | [] => none
  | line :: rest =>
    match matchHTTPLine line with
    | some (m, target) =>
      some ({ t with method := m, url := resolveTarget root target }, rest)
    | none => findMethodLine t root rest

/-- Parse a single test block (`parseTestBlock`, `parser.go:123-214`):
apply default headers, find the request line, resolve the URL, and run
the option/header scan.  The fenced body block and assertion/save
sections of the block are parsed by later code not covered by the claims
and left at their zero values here. -/
def parseTestBlock (name content : Str) (defaults : Defaults) : Test :=
  let t := defaults.headers.foldl (fun t kv => setHeader t kv.1 kv.2) (Test.init name)
  let lines := splitOnChar '\n' content
  match findMethodLine t defaults.root lines with
  | none => t
  | some (t, rest) => scanOptions t rest

/-!
Execution engine (`http.go`).  The HTTP exchange itself is replaced by an
oracle: a scripted list of responses, one per attempt, each already
byte-buffered and best-effort JSON-parsed (`none` models Go's `nil`
`respJSON` for non-JSON bodies).  Request construction, transport errors
and the form-body re-encoding of `http.go:52-97` produce no observation
the claims mention and are absorbed by the oracle.
-/

/-- The `\x7b\x7bname\x7d\x7d` placeholder built at `http.go:23`. -/
def placeholder (name : Str) : Str := lit "\x7b\x7b" ++ name ++ lit "\x7d\x7d"

/-- Replace `\x7b\x7bvariable\x7d\x7d` placeholders with saved values
(`interpolateVariables`, `http.go:17-27`).  The Go `range` over the map
visits entries in an unspecified order; the model takes the entry list as
given, so order-dependence is expressible by permuting the list. -/
def interpolateVariables (s : Str) (vars : VarStore) : Str :=
  vars.foldl (fun res kv => replaceAll res (placeholder kv.1) (govFmt kv.2)) s

/-- The callee-local test value after the interpolation prologue of
`runTest` (`http.go:37-41`): URL, body and every header value are
interpolated once, before the first attempt. -/
def interpolateTest (t : Test) (vars : VarStore) : Test :=
  { t with
    url := interpolateVariables t.url vars,
    body := interpolateVariables t.body vars,
    headers := t.headers.map fun kv => (kv.1, interpolateVariables kv.2 vars) }

/-- The test value the caller observes after `runTest` returns.  Go passes
the `Test` struct by value, so the assignments to `test.URL` and
`test.Body` (`http.go:37-38`) stay in the callee's copy; but
`test.Headers` is a map reference shared with the caller, so the writes of
`http.go:40` are visible through the caller's own `Test` value. -/
def callerView (orig callee : Test) : Test :=
  { orig with headers := callee.headers }

/-- Nested-field lookup loop of `getJSONField` (`http.go:355-373`):
`path` is the whole original dot path (used in the not-found message),
`parts` the remaining segments. -/
def getField (path : Str) : Json → List Str → Except Str Json
  | cur, [] => .ok cur
  | .obj members, part :: rest =>
    match lookupJ members part with
    | some v => getField path v rest
    | none => .error (lit "field '" ++ path ++ lit "' not found")
  | _, part :: _ =>
    .error (lit "cannot traverse into non-object at '" ++ part ++ lit "'")

/-- Retrieve a nested field from JSON using dot notation (`getJSONField`,
`http.go:354-373`): split the path on `.` and walk the segments, each of
which must index into a JSON object. -/
def getJSONField (data : JObj) (path : Str) : Except Str Json :=
  getField path (.obj data) (splitOnChar '.' path)

/-- Go `strconv.ParseInt` (and `Atoi`) on the modelled inputs: an optional
sign followed by at least one digit (machine overflow outside the
embedding). -/
def parseInt? (s : Str) : Option Int :=
  match s with
  | '-' :: ds => if ds ≠ [] && ds.all (·.isDigit) then some (-(natOfDigits ds : Int)) else none
  | '+' :: ds => if ds ≠ [] && ds.all (·.isDigit) then some (natOfDigits ds : Int) else none
  | ds => if ds ≠ [] && ds.all (·.isDigit) then some (natOfDigits ds : Int) else none

/-- Convert an assertion value string to the appropriate type
(`parseExpectedValue`, `http.go:376-400`).  The `ParseFloat` fallback is
outside the embedding (fractional literals fall through to the verbatim
string default, which renders identically under `%v` for the fragment the
fixtures use). -/
def parseExpectedValue (value : Str) : Json :=
  if (lit "\"").isPrefixOf value && (lit "\"").isSuffixOf value then
    .str (((value.dropWhile (· = '"')).reverse.dropWhile (· = '"')).reverse)
  else if value = lit "true" then .bool true
  else if value = lit "false" then .bool false
  else
    match parseInt? value with
    | some n => .num n
    | none => .str value

/-- Compare two values for equality, handling type conversions
(`valuesEqual`, `http.go:403-414`): direct equality first, else equality
of the `%v` renderings. -/
def valuesEqual (actual expected : Json) : Bool :=
  actual == expected || govFmt actual == govFmt expected

example : valuesEqual (.num 42) (.str (lit "42")) = true := by decide
example : valuesEqual (.bool true) (.str (lit "true")) = true := by decide
example : valuesEqual (.str (lit "a")) (.str (lit "b")) = false := by decide

/-- Separate a field path from pipe-separated transforms
(`splitFieldTransforms`, `http.go:306-317`). -/
def splitFieldTransforms (field : Str) : Str × List Str :=
  let parts := splitOnChar '|' field
  (trimSpace (parts.headD []), ((parts.drop 1).map trimSpace).filter (· ≠ []))

/-- Go `formatDuration` (`main.go:124-129`): milliseconds below one
second, else seconds with two decimals (`%.2f` rounds to nearest, ties
outside the embedding). -/
def formatDuration (d : Nat) : Str :=
  if d < 1000000000 then natToStr (d / 1000000) ++ lit "ms"
  else
    let cs := (d + 5000000) / 10000000
    natToStr (cs / 100) ++ '.' ::
      (if cs % 100 < 10 then '0' :: natToStr (cs % 100) else natToStr (cs % 100)) ++ lit "s"

/-- Check a single assertion against the response (`validateAssertion`,
`http.go:166-302`), restricted to the pure fragment: `some (some e)` is a
failure with message `e`, `some none` a pass, and `none` marks the parts
of the source outside this embedding (the pipe-transform chains, whose
base64 decoding, and the `body_matches_file` / `body_partial_match` kinds,
whose file I/O and JSON re-parsing, are not modelled).  Unknown assertion
types fall through the source's `switch` and pass. -/
def validateAssertion (a : Assertion) (statusCode : Nat) (body : Str)
    (jsonBody : Option JObj) (duration : Nat) : Option (Option Str) :=
  if a.type = lit "status" then
    match parseInt? a.value with
    | none => some (some (lit "invalid status code in assertion: " ++ a.value))
    | some expected =>
      if (statusCode : Int) ≠ expected then
        let preview := if 500 < body.length then body.take 500 ++ lit "..." else body
        if preview ≠ [] then
          some (some (lit "status assertion failed: expected " ++ a.value ++
            lit ", got " ++ natToStr statusCode ++ lit "\n       Response: " ++ preview))
        else
          some (some (lit "status assertion failed: expected " ++ a.value ++
            lit ", got " ++ natToStr statusCode))
      else some none
  else if a.type = lit "body_contains" then
    match jsonBody with
    | none => some (some (lit "body contains assertion failed: response is not valid JSON"))
    | some jb =>
      let (fieldPath, transforms) := splitFieldTransforms a.field
      if transforms ≠ [] then none
      else if (lookupJ jb fieldPath).isSome then some none
      else some (some (lit "body contains assertion failed: field '" ++ fieldPath ++
        lit "' not found in response"))
  else if a.type = lit "field_equals" then
    match jsonBody with
    | none => some (some (lit "field equals assertion failed: response is not valid JSON"))
    | some jb =>
      let (fieldPath, transforms) := splitFieldTransforms a.field
      if transforms ≠ [] then none
      else
        match getJSONField jb fieldPath with
        | .error e => some (some (lit "field equals assertion failed: " ++ e))
        | .ok actual =>
          let expected := parseExpectedValue a.value
          if valuesEqual actual expected then some none
          else some (some (lit "field equals assertion failed: field '" ++ a.field ++
            lit "' expected " ++ govFmt expected ++ lit ", got " ++ govFmt actual))
  else if a.type = lit "duration" then
    match goParseDuration (trimSpace a.value) with
    | none => none
    | some maxDuration =>
      if maxDuration < duration then
        some (some (lit "duration assertion failed: expected < " ++
          formatDuration maxDuration ++ lit ", got " ++ formatDuration duration))
      else some none
  else if a.type = lit "body_matches_file" || a.type = lit "body_partial_match" then none
  else some none

/-- Run the assertion loop of `http.go:146-150`: validate in declared
order and stop at the first failure. -/
def validateAll (assertions : List Assertion) (statusCode : Nat) (body : Str)
    (jsonBody : Option JObj) (duration : Nat) : Option (Option Str) :=
  match assertions with
  | [] => some none
  | a :: rest =>
    match validateAssertion a statusCode body jsonBody duration with
    | none => none
    | some (some e) => some (some e)
    | some none => validateAll rest statusCode body jsonBody duration

/-- The save loop of `http.go:152-159`: extract each saved field in order,
writing each extracted value into the store as it goes; the first failing
extraction stops the loop, returning the store as mutated so far together
with the error. -/
def runSaves (saveFields : List SaveField) (respJSON : Option JObj)
    (vars : VarStore) : VarStore × Option Str :=
  match saveFields with
  | [] => (vars, none)
  | sf :: rest =>
    match getJSONField (respJSON.getD []) sf.field with
    | .error e => (vars, some (lit "save field failed: " ++ e))
    | .ok v => runSaves rest respJSON (setAssoc vars sf.variable_ v)

/-- Effective retry delay (`http.go:43-46`): a zero `RetryDelay` acts as
a sentinel for the default of one second. -/
def effRetryDelay (t : Test) : Nat :=
  if t.retryDelay = 0 then 1000000000 else t.retryDelay

/-- Effective maximum attempts (`http.go:47-50`): a zero `RetryMax` acts
as a sentinel for the default of ten attempts. -/
def effRetryMax (t : Test) : Nat :=
  if t.retryMax = 0 then 10 else t.retryMax

/-- One scripted HTTP exchange: the status code, the buffered body bytes,
the best-effort JSON parse of the body (`none` for Go's `nil` map), and
the measured duration in nanoseconds. -/
structure Response where
  status : Nat
  rawBody : Str
  respJSON : Option JObj
  duration : Nat
deriving DecidableEq

/-- The observation of one `runTest` call: the returned variable store,
the returned error (if any), the number of attempts made (requests sent)
and the number of `time.Sleep(retryDelay)` calls executed. -/
structure Outcome where
  vars : VarStore
  err : Option Str
  attempts : Nat
  sleeps : Nat
deriving DecidableEq

/-- The validate-then-save tail of a successful attempt
(`http.go:145-161`). -/
def finishAttempt (t : Test) (r : Response) (vars : VarStore)
    (attempt sleeps : Nat) : Option Outcome :=
  match validateAll t.assertions r.status r.rawBody r.respJSON r.duration with
  | none => none
  | some (some e) => some ⟨vars, some e, attempt, sleeps⟩
  | some none =>
    let res := runSaves t.saveFields r.respJSON vars
    some ⟨res.1, res.2, attempt, sleeps⟩

/-- The retry loop of `runTest` (`http.go:77-162`) over the scripted
responses: `t` is the already-interpolated local test, `attempt` and
`sleeps` the counters accumulated so far.  Returns `none` when the script
runs out (or an attempt leaves the modelled fragment). -/
def runTestLoop (t : Test) (retryMax : Nat) :
    List Response → VarStore → Nat → Nat → Option Outcome
  | [], _, _, _ => none
  | r :: rest, vars, attempt, sleeps =>
    let attempt := attempt + 1
    if t.waitForStatus ≠ 0 && r.status ≠ t.waitForStatus then
      if retryMax ≤ attempt then
        some ⟨vars, some (lit "wait for status " ++ natToStr t.waitForStatus ++
          lit " failed: got " ++ natToStr r.status ++ lit " after " ++
          natToStr attempt ++ lit " attempts"), attempt, sleeps⟩
      else runTestLoop t retryMax rest vars attempt (sleeps + 1)
    else if t.waitForField ≠ [] then
      match getJSONField (r.respJSON.getD []) t.waitForField with
      | .error _ =>
        if retryMax ≤ attempt then
          some ⟨vars, some (lit "wait for field `" ++ t.waitForField ++
            lit "` failed: field not found after " ++ natToStr attempt ++
            lit " attempts"), attempt, sleeps⟩
        else runTestLoop t retryMax rest vars attempt (sleeps + 1)
      | .ok actual =>
        if valuesEqual actual (parseExpectedValue t.waitForValue) then
          finishAttempt t r vars attempt sleeps
        else if retryMax ≤ attempt then
          some ⟨vars, some (lit "wait for field `" ++ t.waitForField ++
            lit "` equals `" ++ t.waitForValue ++ lit "` failed: got `" ++
            govFmt actual ++ lit "` after " ++ natToStr attempt ++
            lit " attempts"), attempt, sleeps⟩
        else runTestLoop t retryMax rest vars attempt (sleeps + 1)
    else finishAttempt t r vars attempt sleeps

/-- Execute a single test against the scripted responses (`runTest`,
`http.go:31-163`): interpolate the URL, body and headers once into the
callee-local copy, apply the retry-policy defaults, then run the attempt
loop.  A `nil` incoming store is the empty list.  Each executed sleep
lasts `effRetryDelay` nanoseconds, so total time spent sleeping is
`sleeps * effRetryDelay`. -/
def runTest (t : Test) (vars : VarStore) (responses : List Response) : Option Outcome :=
  let tl := interpolateTest t vars
  runTestLoop tl (effRetryMax tl) responses vars 0 0

/-- The cumulative effect of the successful prefix of the save loop: fold
the extracted values into the store, skipping nothing (used to state what
`runSaves` has already written when a later directive fails). -/
def applySaves (saveFields : List SaveField) (respJSON : Option JObj)
    (vars : VarStore) : VarStore :=
  saveFields.foldl
    (fun vs sf =>
      match getJSONField (respJSON.getD []) sf.field with
      | .ok v => setAssoc vs sf.variable_ v
      | .error _ => vs)
    vars

/-!
Interpolation templates.  To reason about substitution order we describe
the subject strings on which `interpolateVariables` acts as chunk lists:
literal text interleaved with occurrences of the two variables'
placeholders.  A template is well formed when braces occur only as the
placeholders themselves.
-/

/-- No brace characters occur in the string. -/
def braceFreeB (s : Str) : Bool := s.all fun c => c ≠ '\x7b' && c ≠ '\x7d'

/-- One chunk of a two-variable template: literal text, or an occurrence
of the first or second variable. -/
inductive TChunk where
  | text (cs : Str)
  | v1
  | v2
deriving DecidableEq

/-- Render a chunk list, substituting `s1` for `v1` occurrences and `s2`
for `v2` occurrences. -/
def renderW (s1 s2 : Str) : List TChunk → Str
  | [] => []
  | .text cs :: rest => cs ++ renderW s1 s2 rest
  | .v1 :: rest => s1 ++ renderW s1 s2 rest
  | .v2 :: rest => s2 ++ renderW s1 s2 rest

/-- Every literal chunk of the template is brace-free. -/
def chunksOKB : List TChunk → Bool
  | [] => true
  | .text cs :: rest => braceFreeB cs && chunksOKB rest
  | _ :: rest => chunksOKB rest

instance : DecidableEq (Except Str Json) := fun a b =>
  match a, b with
  | .ok x, .ok y =>
    if h : x = y then isTrue (h ▸ rfl) else isFalse (fun e => h (Except.ok.inj e))
  | .error x, .error y =>
    if h : x = y then isTrue (h ▸ rfl) else isFalse (fun e => h (Except.error.inj e))
  | .ok _, .error _ => isFalse nofun
  | .error _, .ok _ => isFalse nofun

/-!
Concrete fixtures used by the claim-level evaluations.
-/

/-- A test polling for status 200 with an explicit retry maximum. -/
def waitTest (m : Nat) : Test :=
  { Test.init (lit "t") with
    url := lit "http://s"
    waitForStatus := 200
    retryMax := m }

/-- A scripted plain 500 response. -/
def r500 : Response := ⟨500, [], none, 0⟩

/-- A scripted plain 200 response. -/
def r200 : Response := ⟨200, [], none, 0⟩

/-- A test saving two fields, the second of which is absent from the
response. -/
def saveCexTest : Test :=
  { Test.init (lit "t") with
    url := lit "http://s"
    saveFields := [⟨lit "a", lit "va"⟩, ⟨lit "b", lit "vb"⟩] }

/-- The scripted response for `saveCexTest`: only field `a` is present. -/
def saveCexResponse : Response := ⟨200, lit "x", some [(lit "a", Json.num 1)], 0⟩

/-- A test whose sole header value is a placeholder template. -/
def hdrTemplateTest : Test :=
  { Test.init (lit "t") with headers := [(lit "H", lit "\x7b\x7bx\x7d\x7d")] }

/-- The test parsed from a block carrying a `Retry 0 times every 2s`
directive together with a wait-for-status directive. -/
def retryZeroTest : Test :=
  { Test.init (lit "T") with
    url := lit "http://x"
    waitForStatus := 200
    retryMax := 0
    retryDelay := 2000000000 }

/-- The test parsed from the wait-for-field block of the repository's own
test suite, as the scan actually leaves it. -/
def waitFieldScanResult : Test :=
  { Test.init (lit "Test") with url := lit "https://example.com/status" }

/-!
General lemmas about the string model.
-/

theorem replaceCoreF_nil (p r : Str) (f : Nat) : replaceCoreF p r f [] = [] := by
  cases f <;> rfl

theorem replaceCoreF_irrel (p r : Str) :
    ∀ f1 f2 s, s.length ≤ f1 → s.length ≤ f2 →
      replaceCoreF p r f1 s = replaceCoreF p r f2 s := by
  intro f1
  induction f1 with
  | zero =>
    intro f2 s h1 _
    have hs : s = [] := List.eq_nil_of_length_eq_zero (Nat.le_zero.mp h1)
    subst hs
    rw [replaceCoreF_nil, replaceCoreF_nil]
  | succ g ih =>
    intro f2 s h1 h2
    match s, f2 with
    | [], f2 => rw [replaceCoreF_nil, replaceCoreF_nil]
    | c :: t, 0 => exact absurd h2 (by simp)
    | c :: t, g2 + 1 =>
      have ht : t.length ≤ g := by simpa using h1
      have ht2 : t.length ≤ g2 := by simpa using h2
      have hd : (t.drop (p.length - 1)).length ≤ t.length := by simp
      simp only [replaceCoreF]
      by_cases hp : p.isPrefixOf (c :: t) = true
      · rw [if_pos hp, if_pos hp, ih g2 _ (le_trans hd ht) (le_trans hd ht2)]
      · rw [if_neg hp, if_neg hp, ih g2 t ht ht2]

theorem replaceCore_nil (p r : Str) : replaceCore p r [] = [] := rfl

theorem replaceCore_cons (p r : Str) (c : Char) (t : Str) :
    replaceCore p r (c :: t) =
      if p.isPrefixOf (c :: t) then r ++ replaceCore p r (t.drop (p.length - 1))
      else c :: replaceCore p r t := by
  show replaceCoreF p r (c :: t).length (c :: t) = _
  rw [List.length_cons]
  simp only [replaceCoreF]
  by_cases hp : p.isPrefixOf (c :: t) = true
  · rw [if_pos hp, if_pos hp]
    congr 1
    exact replaceCoreF_irrel p r t.length _ _ (by simp) (le_refl _)
  · rw [if_neg hp, if_neg hp]
    rfl

/-- The placeholder in explicit cons form. -/
theorem placeholder_eq (n : Str) :
    placeholder n = '\x7b' :: '\x7b' :: (n ++ ['\x7d', '\x7d']) := rfl

theorem placeholder_ne_nil (n : Str) : placeholder n ≠ [] := by
  rw [placeholder_eq]; exact List.cons_ne_nil _ _

theorem replaceAll_placeholder (s n r : Str) :
    replaceAll s (placeholder n) r = replaceCore (placeholder n) r s := by
  rw [placeholder_eq]; rfl

/-- A literal run that avoids the pattern's head character passes through
the scan untouched. -/
theorem replaceCore_pass (p r : Str) (h0 : Char) (hh : p.headD ' ' = h0)
    (hp : p ≠ []) :
    ∀ (a b : Str), (∀ c ∈ a, c ≠ h0) →
      replaceCore p r (a ++ b) = a ++ replaceCore p r b := by
  intro a
  induction a with
  | nil => intro b _; rfl
  | cons c a2 ih =>
    intro b ha
    have hc : c ≠ h0 := ha c (by simp)
    obtain ⟨ph, pt, rfl⟩ : ∃ ph pt, p = ph :: pt := by
      cases p with
      | nil => exact absurd rfl hp
      | cons x xs => exact ⟨x, xs, rfl⟩
    have hph : ph = h0 := by simpa using hh
    have hnp : (ph :: pt).isPrefixOf (c :: (a2 ++ b)) = false := by
      simp only [List.isPrefixOf, Bool.and_eq_false_iff]
      left
      exact beq_eq_false_iff_ne.mpr (fun e => hc (e ▸ hph))
    have hcond : ¬ ((ph :: pt).isPrefixOf (c :: (a2 ++ b)) = true) := by simp [hnp]
    rw [List.cons_append, replaceCore_cons, if_neg hcond,
      ih b (fun c2 hc2 => ha c2 (by simp [hc2])), List.cons_append]

/-- Replacing at an occurrence of the placeholder itself. -/
theorem replaceCore_hit (n r b : Str) :
    replaceCore (placeholder n) r (placeholder n ++ b) =
      r ++ replaceCore (placeholder n) r b := by
  have hpre : (placeholder n).isPrefixOf
      ('\x7b' :: '\x7b' :: ((n ++ ['\x7d', '\x7d']) ++ b)) = true := by
    rw [placeholder_eq]
    exact List.isPrefixOf_iff_prefix.mpr
      (List.cons_prefix_cons.mpr ⟨rfl,
        List.cons_prefix_cons.mpr ⟨rfl, List.prefix_append _ _⟩⟩)
  have hshape : placeholder n ++ b =
      '\x7b' :: '\x7b' :: ((n ++ ['\x7d', '\x7d']) ++ b) := by
    rw [placeholder_eq]; simp
  rw [hshape, replaceCore_cons, if_pos hpre]
  congr 1
  have hlen : (placeholder n).length - 1 = (n ++ ['\x7d', '\x7d']).length + 1 := by
    rw [placeholder_eq]; simp
  rw [hlen, List.drop_succ_cons, List.drop_left]

theorem braceFree_spec {s : Str} (h : braceFreeB s = true) :
    ∀ c ∈ s, c ≠ '\x7b' ∧ c ≠ '\x7d' := by
  intro c hc
  have := List.all_eq_true.mp h c hc
  simpa using this

theorem placeholder_headD (n : Str) : (placeholder n).headD ' ' = '\x7b' := by
  rw [placeholder_eq]; rfl

/-- Distinct brace-free names cannot have one closing-delimited tail be a
prefix of the other's. -/
theorem nameTail_not_prefix :
    ∀ (m n b : Str), (∀ c ∈ m, c ≠ '\x7d') → (∀ c ∈ n, c ≠ '\x7d') → m ≠ n →
      ¬ ((m ++ ['\x7d', '\x7d']) <+: n ++ '\x7d' :: '\x7d' :: b) := by
  intro m
  induction m with
  | nil =>
    intro n b _ hn hne hpre
    cases n with
    | nil => exact hne rfl
    | cons d n2 =>
      rw [List.nil_append, List.cons_append] at hpre
      exact hn d (by simp) (List.cons_prefix_cons.mp hpre).1.symm
  | cons c m2 ih =>
    intro n b hm hn hne hpre
    cases n with
    | nil =>
      rw [List.cons_append, List.nil_append] at hpre
      exact hm c (by simp) (List.cons_prefix_cons.mp hpre).1
    | cons d n2 =>
      rw [List.cons_append, List.cons_append] at hpre
      obtain ⟨hcd, hrest⟩ := List.cons_prefix_cons.mp hpre
      exact ih n2 b (fun x hx => hm x (by simp [hx])) (fun x hx => hn x (by simp [hx]))
        (fun e => hne (by rw [hcd, e])) hrest

/-- The placeholder of one brace-free name never matches at the start of
the other's placeholder. -/
theorem placeholder_no_clash (n m : Str) (b : Str)
    (hn : braceFreeB n = true) (hm : braceFreeB m = true) (hne : n ≠ m) :
    (placeholder m).isPrefixOf ('\x7b' :: '\x7b' :: (n ++ '\x7d' :: '\x7d' :: b)) = false := by
  rw [Bool.eq_false_iff]
  intro htrue
  have hpre := List.isPrefixOf_iff_prefix.mp htrue
  rw [placeholder_eq] at hpre
  obtain ⟨-, hpre⟩ := List.cons_prefix_cons.mp hpre
  obtain ⟨-, hpre⟩ := List.cons_prefix_cons.mp hpre
  exact nameTail_not_prefix m n b
    (fun c hc => (braceFree_spec hm c hc).2)
    (fun c hc => (braceFree_spec hn c hc).2)
    (fun e => hne e.symm) hpre

/-- A placeholder of a distinct brace-free name passes through the scan
untouched. -/
theorem replaceCore_pass_ph (n m v : Str)
    (hn : braceFreeB n = true) (hm : braceFreeB m = true) (hne : n ≠ m) :
    ∀ b, replaceCore (placeholder m) v (placeholder n ++ b) =
      placeholder n ++ replaceCore (placeholder m) v b := by
  intro b
  have hshape2 : ∀ y : Str, placeholder n ++ y =
      '\x7b' :: '\x7b' :: (n ++ '\x7d' :: '\x7d' :: y) := by
    intro y
    rw [placeholder_eq]
    simp
  have hshape := hshape2 b
  have hA : (placeholder m).isPrefixOf
      ('\x7b' :: '\x7b' :: (n ++ '\x7d' :: '\x7d' :: b)) = false :=
    placeholder_no_clash n m b hn hm hne
  have hB : (placeholder m).isPrefixOf ('\x7b' :: (n ++ '\x7d' :: '\x7d' :: b)) = false := by
    rw [Bool.eq_false_iff]
    intro htrue
    have hpre := List.isPrefixOf_iff_prefix.mp htrue
    rw [placeholder_eq] at hpre
    obtain ⟨-, hpre⟩ := List.cons_prefix_cons.mp hpre
    cases n with
    | nil =>
      rw [List.nil_append] at hpre
      exact absurd (List.cons_prefix_cons.mp hpre).1 (by decide)
    | cons c n2 =>
      rw [List.cons_append] at hpre
      exact (braceFree_spec hn c (by simp)).1 (List.cons_prefix_cons.mp hpre).1.symm
  have hD : ∀ x, (placeholder m).isPrefixOf ('\x7d' :: x) = false := by
    intro x
    rw [Bool.eq_false_iff]
    intro htrue
    have hpre := List.isPrefixOf_iff_prefix.mp htrue
    rw [placeholder_eq] at hpre
    exact absurd (List.cons_prefix_cons.mp hpre).1 (by decide)
  rw [hshape, replaceCore_cons, if_neg (by simp [hA]), replaceCore_cons,
    if_neg (by simp [hB]),
    replaceCore_pass (placeholder m) v '\x7b' (placeholder_headD m)
      (placeholder_ne_nil m) n _ (fun c hc => (braceFree_spec hn c hc).1),
    replaceCore_cons, if_neg (by simp [hD]), replaceCore_cons, if_neg (by simp [hD]),
    hshape2 (replaceCore (placeholder m) v b)]

/-- Replacing one placeholder in a rendered template substitutes exactly
the chunks standing for it, leaving literal chunks and (by the supplied
pass-through hypotheses) the other chunk text unchanged. -/
theorem replaceCore_render (p v σ1 σ2 τ1 τ2 : Str)
    (hp : p ≠ []) (hph : p.headD ' ' = '\x7b')
    (h1 : ∀ b, replaceCore p v (σ1 ++ b) = τ1 ++ replaceCore p v b)
    (h2 : ∀ b, replaceCore p v (σ2 ++ b) = τ2 ++ replaceCore p v b) :
    ∀ cs, chunksOKB cs = true →
      replaceCore p v (renderW σ1 σ2 cs) = renderW τ1 τ2 cs := by
  intro cs
  induction cs with
  | nil => intro _; rfl
  | cons ch rest ih =>
    intro hok
    cases ch with
    | text a =>
      have hsplit : braceFreeB a = true ∧ chunksOKB rest = true := by
        simpa [chunksOKB, Bool.and_eq_true] using hok
      simp only [renderW]
      rw [replaceCore_pass p v '\x7b' hph hp a _
        (fun c hc => (braceFree_spec hsplit.1 c hc).1), ih hsplit.2]
    | v1 =>
      have hrest : chunksOKB rest = true := by simpa [chunksOKB] using hok
      simp only [renderW]
      rw [h1, ih hrest]
    | v2 =>
      have hrest : chunksOKB rest = true := by simpa [chunksOKB] using hok
      simp only [renderW]
      rw [h2, ih hrest]

theorem splitOnChar_ne_nil (sep : Char) (s : Str) : splitOnChar sep s ≠ [] := by
  cases s with
  | nil => simp [splitOnChar]
  | cons c t =>
    cases hsp : splitOnChar sep t with
    | nil => simp [splitOnChar, hsp]
    | cons h r =>
      simp only [splitOnChar, hsp]
      by_cases hc : c = sep
      · rw [if_pos hc]; simp
      · rw [if_neg hc]; simp

theorem splitOnChar_sep_cons (sep : Char) (b : Str) :
    splitOnChar sep (sep :: b) = [] :: splitOnChar sep b := by
  cases hsp : splitOnChar sep b with
  | nil => exact absurd hsp (splitOnChar_ne_nil sep b)
  | cons h r =>
    simp [splitOnChar, hsp]

theorem splitOnChar_append (sep : Char) (a b : Str) (ha : ∀ c ∈ a, c ≠ sep) :
    splitOnChar sep (a ++ sep :: b) = a :: splitOnChar sep b := by
  induction a with
  | nil =>
    rw [List.nil_append, splitOnChar_sep_cons]
  | cons c a2 ih =>
    rw [List.cons_append]
    have hmid := ih (fun x hx => ha x (by simp [hx]))
    cases hsp : splitOnChar sep b with
    | nil => exact absurd hsp (splitOnChar_ne_nil sep b)
    | cons h r =>
      rw [hsp] at hmid
      simp only [splitOnChar, hmid]
      rw [if_neg (ha c (by simp))]

theorem joinChar_splitOnChar (sep : Char) (s : Str) :
    joinChar sep (splitOnChar sep s) = s := by
  induction s with
  | nil => rfl
  | cons c t ih =>
    cases hsp : splitOnChar sep t with
    | nil => exact absurd hsp (splitOnChar_ne_nil sep t)
    | cons h r =>
      rw [hsp] at ih
      simp only [splitOnChar, hsp]
      by_cases hc : c = sep
      · rw [if_pos hc]
        show [] ++ sep :: joinChar sep (h :: r) = c :: t
        rw [List.nil_append, ih, hc]
      · rw [if_neg hc]
        cases r with
        | nil =>
          show c :: h = c :: t
          have hj : joinChar sep [h] = h := rfl
          rw [hj] at ih
          rw [ih]
        | cons h2 r2 =>
          show (c :: h) ++ sep :: joinChar sep (h2 :: r2) = c :: t
          have hj : joinChar sep (h :: h2 :: r2) = h ++ sep :: joinChar sep (h2 :: r2) := rfl
          rw [hj] at ih
          rw [List.cons_append, ih]

theorem dropWhile_cons_false {c : Char} {x : Str} {p : Char → Bool} (hc : p c = false) :
    (c :: x).dropWhile p = c :: x := by
  rw [List.dropWhile_cons, if_neg (by simp [hc])]

theorem dropWhile_eq_self_of_trim {s : Str} (h : trimSpace s = s) :
    s.dropWhile isGoSpace = s := by
  have hsuf : s.dropWhile isGoSpace <:+ s := List.dropWhile_suffix _
  apply hsuf.eq_of_length
  have hlen : (trimSpace s).length ≤ (s.dropWhile isGoSpace).length := by
    unfold trimSpace
    rw [List.length_reverse]
    calc ((s.dropWhile isGoSpace).reverse.dropWhile isGoSpace).length
        ≤ (s.dropWhile isGoSpace).reverse.length :=
          (List.dropWhile_suffix _).length_le
      _ = (s.dropWhile isGoSpace).length := List.length_reverse _
  have hup : (s.dropWhile isGoSpace).length ≤ s.length := hsuf.length_le
  have hdn : s.length ≤ (s.dropWhile isGoSpace).length := by
    calc s.length = (trimSpace s).length := by rw [h]
      _ ≤ _ := hlen
  omega

theorem reverse_dropWhile_eq_of_trim {s : Str} (h : trimSpace s = s) :
    s.reverse.dropWhile isGoSpace = s.reverse := by
  have h1 := dropWhile_eq_self_of_trim h
  have h2 : ((s.dropWhile isGoSpace).reverse.dropWhile isGoSpace).reverse = s := h
  rw [h1] at h2
  have := congrArg List.reverse h2
  simpa using this

theorem head_not_space {c : Char} {t : Str}
    (h : (c :: t).dropWhile isGoSpace = c :: t) : isGoSpace c = false := by
  by_cases hws : isGoSpace c = true
  · rw [List.dropWhile_cons, if_pos (by simp [hws])] at h
    have hle : (t.dropWhile isGoSpace).length ≤ t.length :=
      (List.dropWhile_suffix _).length_le
    have := congrArg List.length h
    simp at this
    omega
  · simpa using hws

theorem trimSpace_eq_self_of (s : Str) (h1 : s.dropWhile isGoSpace = s)
    (h2 : s.reverse.dropWhile isGoSpace = s.reverse) : trimSpace s = s := by
  unfold trimSpace
  rw [h1, h2, List.reverse_reverse]

/-- A string whose first and last characters are non-space, with a
non-space-headed and non-space-ended decomposition, is trim-fixed: the
concatenation form used for frontmatter contents. -/
theorem trimSpace_concat (c : Char) (mid body : Str)
    (hc : isGoSpace c = false) (hbody : trimSpace body = body) (hbne : body ≠ []) :
    trimSpace (c :: mid ++ body) = c :: mid ++ body := by
  apply trimSpace_eq_self_of
  · rw [List.cons_append]
    exact dropWhile_cons_false hc
  · rw [List.cons_append, List.reverse_cons, List.reverse_append]
    obtain ⟨d, w, hw⟩ : ∃ d w, body.reverse = d :: w := by
      cases hb : body.reverse with
      | nil => exact absurd (by simpa using congrArg List.reverse hb) hbne
      | cons d w => exact ⟨d, w, rfl⟩
    have hrev := reverse_dropWhile_eq_of_trim hbody
    rw [hw] at hrev
    have hd : isGoSpace d = false := head_not_space hrev
    rw [hw, List.cons_append]
    exact dropWhile_cons_false hd

/-!
Claim theorems.
-/

/-- Claim C1 (amended): after `runTest` returns, the caller-visible test
still carries the original URL and body templates — the `Test` struct is
passed by value and the assignments of `http.go:37-38` stay local — but
the header map is shared by reference, so the caller's header values have
been replaced by their interpolations (`http.go:39-41`).  Interpolation
happens once, before the first attempt, not per attempt. -/
theorem runTest_template_frame (t : Test) (vars : VarStore) :
    (callerView t (interpolateTest t vars)).url = t.url ∧
    (callerView t (interpolateTest t vars)).body = t.body ∧
    (callerView t (interpolateTest t vars)).headers =
      t.headers.map (fun kv => (kv.1, interpolateVariables kv.2 vars)) :=
  ⟨rfl, rfl, rfl⟩

/-- Claim C1, counterexample: a test whose header value is a placeholder
does not keep its header template across `runTest` — the caller's header
map now holds the interpolated value, refuting the claim that URL, header
map and body are all equal to their pre-execution values. -/
theorem runTest_header_map_mutated :
    (callerView hdrTemplateTest
        (interpolateTest hdrTemplateTest [(lit "x", Json.str (lit "v"))])).headers ≠
      hdrTemplateTest.headers := by decide

/-- Claim C2 (amended): when extracting a saved field fails, `runTest`
returns an error, but the save loop (`http.go:152-159`) has already
written every directive preceding the failing one into the store: the
store equals the fold of the successful prefix, so it is unchanged only
when the first save directive is the failing one. -/
theorem runSaves_error_after_prefix (pre : List SaveField) (sf : SaveField)
    (rest : List SaveField) (respJSON : Option JObj) (vars : VarStore) (e : Str)
    (hpre : ∀ s ∈ pre, (getJSONField (respJSON.getD []) s.field).isOk = true)
    (hf : getJSONField (respJSON.getD []) sf.field = .error e) :
    runSaves (pre ++ sf :: rest) respJSON vars =
      (applySaves pre respJSON vars, some (lit "save field failed: " ++ e)) := by
  induction pre generalizing vars with
  | nil => simp [runSaves, hf, applySaves]
  | cons s0 pre2 ih =>
    have hs0 := hpre s0 (by simp)
    obtain ⟨v, hv⟩ : ∃ v, getJSONField (respJSON.getD []) s0.field = .ok v := by
      cases hx : getJSONField (respJSON.getD []) s0.field with
      | ok v => exact ⟨v, rfl⟩
      | error err => rw [hx] at hs0; simp [Except.isOk, Except.toBool] at hs0
    rw [List.cons_append]
    simp only [runSaves, hv]
    rw [ih (setAssoc vars s0.variable_ v)
      (fun s hs => hpre s (List.mem_cons_of_mem _ hs))]
    simp [applySaves, hv]

/-- Claim C2, witness for `runSaves_error_after_prefix`. -/
theorem runSaves_error_after_prefix_witness :
    (∀ s ∈ [(⟨lit "a", lit "va"⟩ : SaveField)],
      (getJSONField ((some [(lit "a", Json.num 1)] : Option JObj).getD [])
        s.field).isOk = true) ∧
    getJSONField ((some [(lit "a", Json.num 1)] : Option JObj).getD [])
      (lit "b") = .error (lit "field 'b' not found") ∧
    runSaves [⟨lit "a", lit "va"⟩, ⟨lit "b", lit "vb"⟩]
        (some [(lit "a", Json.num 1)]) [] =
      (applySaves [⟨lit "a", lit "va"⟩] (some [(lit "a", Json.num 1)]) [],
        some (lit "save field failed: " ++ lit "field 'b' not found")) :=
  ⟨by decide, by decide,
    runSaves_error_after_prefix [⟨lit "a", lit "va"⟩] ⟨lit "b", lit "vb"⟩ []
      (some [(lit "a", Json.num 1)]) [] (lit "field 'b' not found")
      (by decide) (by decide)⟩

/-- Claim C2, counterexample: a test whose second save directive fails
returns an error, yet the store now holds the first saved variable — it is
not unchanged from its pre-test state. -/
theorem runTest_save_failure_store_changed :
    runTest saveCexTest [] [saveCexResponse] =
      some ⟨[(lit "va", Json.num 1)],
        some (lit "save field failed: field 'b' not found"), 1, 0⟩ ∧
    [(lit "va", Json.num 1)] ≠ ([] : VarStore) := by decide

/-- Claim C3: the repository documents and tests a wait-for-field bullet
(`- Wait until field ... equals ...`, README and
`main_test.go:430-452`), but the option scan of `parser.go:178-214` has no
such pattern: on the test suite's own input the bullet matches neither the
wait-for-status, retry, nor header grammars, so scanning stops and the
parsed test carries no wait-for-field condition at all — the code
contradicts its own tests. -/
theorem parseTestBlock_wait_field_ignored :
    parseTestBlock (lit "Test")
        (lit "GET https://example.com/status\n- Wait until field `status.code` equals `ready`")
        { root := [], headers := [] } = waitFieldScanResult := by
  decide

/-- Claim C5: with wait-for-status 200 against scripted statuses
`[500, 500, 200]`, `retryMax = 3` succeeds after exactly 3 attempts with
2 sleeps (so the elapsed time is at least twice the retry delay), while
`retryMax = 2` fails with the wait-timeout error naming the unmet status
after exactly 2 attempts — indeed already on a script with no third
response — and an unset retry policy defaults to 10 attempts and a 1s
delay. -/
theorem runTest_wait_status_retry_scenario :
    runTest (waitTest 3) [] [r500, r500, r200] = some ⟨[], none, 3, 2⟩ ∧
    runTest (waitTest 2) [] [r500, r500, r200] =
      some ⟨[], some (lit "wait for status 200 failed: got 500 after 2 attempts"), 2, 1⟩ ∧
    runTest (waitTest 2) [] [r500, r500] =
      some ⟨[], some (lit "wait for status 200 failed: got 500 after 2 attempts"), 2, 1⟩ ∧
    effRetryMax (waitTest 0) = 10 ∧
    effRetryDelay (waitTest 0) = 1000000000 := by
  refine ⟨by decide, by decide, by decide, by decide, by decide⟩

/-- An absolute URL target cannot start with a slash. -/
theorem abs_not_slash {target : Str}
    (h : (lit "http://").isPrefixOf target = true ∨
         (lit "https://").isPrefixOf target = true) :
    (lit "/").isPrefixOf target = false := by
  cases target with
  | nil =>
    exfalso
    cases h with
    | inl h1 => simp [List.isPrefixOf, lit] at h1
    | inr h1 => simp [List.isPrefixOf, lit] at h1
  | cons c t =>
    have hc : c = 'h' := by
      cases h with
      | inl h1 =>
        rw [show lit "http://" = 'h' :: lit "ttp://" from rfl] at h1
        simp only [List.isPrefixOf, Bool.and_eq_true, beq_iff_eq] at h1
        exact h1.1.symm
      | inr h1 =>
        rw [show lit "https://" = 'h' :: lit "ttps://" from rfl] at h1
        simp only [List.isPrefixOf, Bool.and_eq_true, beq_iff_eq] at h1
        exact h1.1.symm
    subst hc
    rw [show lit "/" = ['/'] from rfl]
    simp [List.isPrefixOf]

/-- Claim C6: target resolution against the configured root
(`parser.go:150-161`): an absolute `http://`/`https://` target is used
as-is and never altered by the root; a target starting with `/` with a
root set resolves to the root concatenated with the target; any other
target with a root resolves to root, `/`, target; and with no root a
non-absolute target passes through verbatim. -/
theorem resolveTarget_spec (root target : Str) :
    ((lit "http://").isPrefixOf target = true ∨
        (lit "https://").isPrefixOf target = true →
      resolveTarget root target = target) ∧
    ((lit "/").isPrefixOf target = true → root ≠ [] →
      resolveTarget root target = root ++ target) ∧
    ((lit "/").isPrefixOf target = false →
      (lit "http://").isPrefixOf target = false →
      (lit "https://").isPrefixOf target = false → root ≠ [] →
      resolveTarget root target = root ++ '/' :: target) ∧
    (root = [] → (lit "http://").isPrefixOf target = false →
      (lit "https://").isPrefixOf target = false →
      resolveTarget root target = target) := by
  refine ⟨?_, ?_, ?_, ?_⟩
  · intro habs
    have hsl := abs_not_slash habs
    unfold resolveTarget
    rw [if_neg (by simp [hsl]), if_pos (by rcases habs with h | h <;> simp [h])]
  · intro hsl hroot
    unfold resolveTarget
    rw [if_pos (by simp [hsl, hroot])]
  · intro hsl h1 h2 hroot
    unfold resolveTarget
    rw [if_neg (by simp [hsl]), if_neg (by simp [h1, h2]), if_pos (by simp [hroot])]
  · intro hroot h1 h2
    unfold resolveTarget
    rw [if_neg (by simp [hroot]), if_neg (by simp [h1, h2]), if_neg (by simp [hroot])]

/-- Claim C6, witness for `resolveTarget_spec` at concrete inputs. -/
theorem resolveTarget_spec_witness :
    resolveTarget (lit "https://r") (lit "https://x") = lit "https://x" ∧
    resolveTarget (lit "https://r") (lit "/a") = lit "https://r" ++ lit "/a" ∧
    resolveTarget (lit "https://r") (lit "a") = lit "https://r" ++ '/' :: lit "a" ∧
    resolveTarget [] (lit "a") = lit "a" :=
  ⟨(resolveTarget_spec (lit "https://r") (lit "https://x")).1 (Or.inr (by decide)),
   (resolveTarget_spec (lit "https://r") (lit "/a")).2.1 (by decide) (by decide),
   (resolveTarget_spec (lit "https://r") (lit "a")).2.2.1 (by decide) (by decide)
     (by decide) (by decide),
   (resolveTarget_spec [] (lit "a")).2.2.2 rfl (by decide) (by decide)⟩

/-- Claim C8: `getJSONField` splits its path on `.` and walks the
segments, each of which must index into a JSON object: any segment —
numeric or not — applied to an array (or any other non-object) fails with
the path-specific non-object error, and a missing key fails immediately
with the path-specific not-found error. -/
theorem getJSONField_path_semantics :
    (∀ (data : JObj) (path : Str),
      getJSONField data path = getField path (Json.obj data) (splitOnChar '.' path)) ∧
    (∀ (path : Str) (xs : List Json) (seg : Str) (rest : List Str),
      getField path (Json.arr xs) (seg :: rest) =
        .error (lit "cannot traverse into non-object at '" ++ seg ++ lit "'")) ∧
    (∀ (path seg : Str) (cur : Json) (rest : List Str),
      (∀ members, cur ≠ Json.obj members) →
      getField path cur (seg :: rest) =
        .error (lit "cannot traverse into non-object at '" ++ seg ++ lit "'")) ∧
    (∀ (path : Str) (members : JObj) (seg : Str) (rest : List Str),
      lookupJ members seg = none →
      getField path (Json.obj members) (seg :: rest) =
        .error (lit "field '" ++ path ++ lit "' not found")) := by
  refine ⟨fun _ _ => rfl, fun _ _ _ _ => rfl, ?_, ?_⟩
  · intro path seg cur rest hobj
    cases cur with
    | obj members => exact absurd rfl (hobj members)
    | null => rfl
    | bool b => rfl
    | num n => rfl
    | str s => rfl
    | arr xs => rfl
  · intro path members seg rest hmiss
    simp [getField, hmiss]

/-- Claim C8, witness for `getJSONField_path_semantics` at concrete
inputs: a numeric segment against an array, and a missing key. -/
theorem getJSONField_path_semantics_witness :
    getField (lit "items.0") (Json.arr [Json.num 1]) [lit "0"] =
      .error (lit "cannot traverse into non-object at '" ++ lit "0" ++ lit "'") ∧
    getField (lit "x") (Json.obj []) [lit "x"] =
      .error (lit "field '" ++ lit "x" ++ lit "' not found") ∧
    getJSONField [(lit "items", Json.arr [Json.num 1])] (lit "items.0") =
      .error (lit "cannot traverse into non-object at '0'") :=
  ⟨getJSONField_path_semantics.2.1 (lit "items.0") [Json.num 1] (lit "0") [],
   getJSONField_path_semantics.2.2.2 (lit "x") [] (lit "x") [] (by decide),
   by decide⟩

/-- Any outcome the attempt loop produces was produced at some attempt
strictly beyond the counter it started from. -/
theorem runTestLoop_attempts :
    ∀ (rs : List Response) (t : Test) (rM : Nat) (vars : VarStore)
      (a s : Nat) (o : Outcome),
      runTestLoop t rM rs vars a s = some o → a + 1 ≤ o.attempts := by
  intro rs
  induction rs with
  | nil => intro t rM vars a s o h; simp [runTestLoop] at h
  | cons r rest ih =>
    intro t rM vars a s o h
    have hfin : ∀ v2 a2 s2, finishAttempt t r v2 a2 s2 = some o → o.attempts = a2 := by
      intro v2 a2 s2 hf
      unfold finishAttempt at hf
      cases hv : validateAll t.assertions r.status r.rawBody r.respJSON r.duration with
      | none => rw [hv] at hf; simp at hf
      | some x =>
        rw [hv] at hf
        cases x with
        | none =>
          simp only [Option.some.injEq] at hf
          rw [← hf]
        | some e =>
          simp only [Option.some.injEq] at hf
          rw [← hf]
    simp only [runTestLoop] at h
    split at h
    · split at h
      · cases h
        simp
      · have := ih t rM vars (a + 1) (s + 1) o h
        omega
    · split at h
      · split at h
        · split at h
          · cases h
            simp
          · have := ih t rM vars (a + 1) (s + 1) o h
            omega
        · split at h
          · have := hfin vars (a + 1) s h
            omega
          · split at h
            · cases h
              simp
            · have := ih t rM vars (a + 1) (s + 1) o h
              omega
      · have := hfin vars (a + 1) s h
        omega

/-- Claim C10: zero retry-policy values are sentinels, not literal
settings: a zero `RetryMax` — including one parsed from a
`Retry 0 times every <dur>` directive — runs with the default ten
attempts, a zero `RetryDelay` with the default one-second delay, and any
outcome the loop returns was produced after at least one attempt. -/
theorem retry_zero_sentinels :
    (∀ t : Test, t.retryMax = 0 → effRetryMax t = 10) ∧
    (∀ t : Test, t.retryDelay = 0 → effRetryDelay t = 1000000000) ∧
    parseTestBlock (lit "T")
        (lit "GET http://x\n- Wait until status is 200\n- Retry 0 times every 2s")
        { root := [], headers := [] } = retryZeroTest ∧
    runTest retryZeroTest [] (List.replicate 12 r500) =
      some ⟨[], some (lit "wait for status 200 failed: got 500 after 10 attempts"), 10, 9⟩ ∧
    (∀ (t : Test) (vars : VarStore) (rs : List Response) (o : Outcome),
      runTest t vars rs = some o → 1 ≤ o.attempts) := by
  refine ⟨?_, ?_, by decide, by decide, ?_⟩
  · intro t h; simp [effRetryMax, h]
  · intro t h; simp [effRetryDelay, h]
  · intro t vars rs o h
    exact runTestLoop_attempts rs _ _ _ 0 0 o h

/-- Claim C10, witness for `retry_zero_sentinels` at concrete inputs. -/
theorem retry_zero_sentinels_witness :
    effRetryMax (Test.init (lit "w")) = 10 ∧
    effRetryDelay (Test.init (lit "w")) = 1000000000 ∧
    1 ≤ (Outcome.mk [] none 1 0).attempts :=
  ⟨retry_zero_sentinels.1 (Test.init (lit "w")) rfl,
   retry_zero_sentinels.2.1 (Test.init (lit "w")) rfl,
   retry_zero_sentinels.2.2.2.2 (waitTest 2) [] [r200]
     (Outcome.mk [] none 1 0) (by decide)⟩

/-- Claim C9, counterexample: substitution order is observable — when one
variable's value contains the other variable's placeholder, the two
iteration orders of the store produce different results. -/
theorem interpolate_order_dependent :
    interpolateVariables (lit "\x7b\x7ba\x7d\x7d")
        [(lit "a", Json.str (lit "\x7b\x7bb\x7d\x7d")), (lit "b", Json.str (lit "B"))] ≠
      interpolateVariables (lit "\x7b\x7ba\x7d\x7d")
        [(lit "b", Json.str (lit "B")), (lit "a", Json.str (lit "\x7b\x7bb\x7d\x7d"))] := by
  decide

/-- Claim C9 (amended): `interpolateVariables` is not order-independent in
general, but substituting two distinct variables commutes on well-formed
templates: when the subject is literal text interleaved with the two
placeholders, braces occur nowhere else, and the substituted value strings
are brace-free, both iteration orders of a two-entry store agree. -/
theorem interpolate_two_vars_comm (n1 n2 : Str) (x1 x2 : Json) (cs : List TChunk)
    (hn1 : braceFreeB n1 = true) (hn2 : braceFreeB n2 = true) (hne : n1 ≠ n2)
    (hv1 : braceFreeB (govFmt x1) = true) (hv2 : braceFreeB (govFmt x2) = true)
    (hcs : chunksOKB cs = true) :
    interpolateVariables (renderW (placeholder n1) (placeholder n2) cs) [(n1, x1), (n2, x2)] =
      interpolateVariables (renderW (placeholder n1) (placeholder n2) cs) [(n2, x2), (n1, x1)] := by
  have hfold : ∀ (s : Str) (a b : Str × Json),
      interpolateVariables s [a, b] =
        replaceAll (replaceAll s (placeholder a.1) (govFmt a.2))
          (placeholder b.1) (govFmt b.2) := fun s a b => rfl
  rw [hfold, hfold]
  simp only [replaceAll_placeholder]
  rw [replaceCore_render (placeholder n1) (govFmt x1) (placeholder n1) (placeholder n2)
        (govFmt x1) (placeholder n2) (placeholder_ne_nil n1) (placeholder_headD n1)
        (fun b => replaceCore_hit n1 (govFmt x1) b)
        (fun b => replaceCore_pass_ph n2 n1 (govFmt x1) hn2 hn1 (fun e => hne e.symm) b)
        cs hcs]
  rw [replaceCore_render (placeholder n2) (govFmt x2) (govFmt x1) (placeholder n2)
        (govFmt x1) (govFmt x2) (placeholder_ne_nil n2) (placeholder_headD n2)
        (fun b => replaceCore_pass (placeholder n2) (govFmt x2) '\x7b'
          (placeholder_headD n2) (placeholder_ne_nil n2) (govFmt x1) b
          (fun c hc => (braceFree_spec hv1 c hc).1))
        (fun b => replaceCore_hit n2 (govFmt x2) b)
        cs hcs]
  rw [replaceCore_render (placeholder n2) (govFmt x2) (placeholder n1) (placeholder n2)
        (placeholder n1) (govFmt x2) (placeholder_ne_nil n2) (placeholder_headD n2)
        (fun b => replaceCore_pass_ph n1 n2 (govFmt x2) hn1 hn2 hne b)
        (fun b => replaceCore_hit n2 (govFmt x2) b)
        cs hcs]
  rw [replaceCore_render (placeholder n1) (govFmt x1) (placeholder n1) (govFmt x2)
        (govFmt x1) (govFmt x2) (placeholder_ne_nil n1) (placeholder_headD n1)
        (fun b => replaceCore_hit n1 (govFmt x1) b)
        (fun b => replaceCore_pass (placeholder n1) (govFmt x1) '\x7b'
          (placeholder_headD n1) (placeholder_ne_nil n1) (govFmt x2) b
          (fun c hc => (braceFree_spec hv2 c hc).1))
        cs hcs]

/-- Claim C9, witness for `interpolate_two_vars_comm` at a concrete
template. -/
theorem interpolate_two_vars_comm_witness :
    chunksOKB [TChunk.text (lit "u-"), TChunk.v1, TChunk.text (lit "-"), TChunk.v2] = true ∧
    interpolateVariables (renderW (placeholder (lit "a")) (placeholder (lit "b"))
        [TChunk.text (lit "u-"), TChunk.v1, TChunk.text (lit "-"), TChunk.v2])
        [(lit "a", Json.str (lit "1")), (lit "b", Json.str (lit "2"))] =
      interpolateVariables (renderW (placeholder (lit "a")) (placeholder (lit "b"))
        [TChunk.text (lit "u-"), TChunk.v1, TChunk.text (lit "-"), TChunk.v2])
        [(lit "b", Json.str (lit "2")), (lit "a", Json.str (lit "1"))] :=
  ⟨by decide,
   interpolate_two_vars_comm (lit "a") (lit "b") (Json.str (lit "1")) (Json.str (lit "2"))
     [TChunk.text (lit "u-"), TChunk.v1, TChunk.text (lit "-"), TChunk.v2]
     (by decide) (by decide) (by decide) (by decide) (by decide) (by decide)⟩

/-- Claim C4 (amended): on a malformed frontmatter block — the trimmed
content starts with the delimiter but the delimiter check or the
closing-delimiter scan fails — `parseFrontmatter` returns empty defaults
and the `TrimSpace`d input (`parser.go:57`), never an error; the original
bytes are returned only when the input equals its trimmed form. -/
theorem parseFrontmatter_malformed (content : Str)
    (h1 : (lit "---").isPrefixOf (trimSpace content) = true)
    (h2 : (splitOnChar '\n' (trimSpace content)).length < 2 ∨
          trimSpace ((splitOnChar '\n' (trimSpace content)).headD []) ≠ lit "---" ∨
          findClosing 1 ((splitOnChar '\n' (trimSpace content)).drop 1) = none) :
    parseFrontmatter content = ({ root := [], headers := [] }, trimSpace content) := by
  simp only [parseFrontmatter]
  rw [if_neg (by simp [h1])]
  split
  · rfl
  · next hcond =>
    rcases h2 with hA | hB | hC
    · have hdA : decide ((splitOnChar '\n' (trimSpace content)).length < 2) = true :=
        decide_eq_true hA
      exact absurd (by rw [hdA, Bool.true_or]) hcond
    · have hdB : decide
          (trimSpace ((splitOnChar '\n' (trimSpace content)).headD []) ≠ lit "---") = true :=
        decide_eq_true hB
      exact absurd (by rw [hdB, Bool.or_true]) hcond
    · rw [hC]

/-- Claim C4, witness for `parseFrontmatter_malformed` at a concrete
malformed input. -/
theorem parseFrontmatter_malformed_witness :
    (lit "---").isPrefixOf (trimSpace (lit "---\nroot: x\n")) = true ∧
    findClosing 1 ((splitOnChar '\n' (trimSpace (lit "---\nroot: x\n"))).drop 1) = none ∧
    parseFrontmatter (lit "---\nroot: x\n") =
      ({ root := [], headers := [] }, trimSpace (lit "---\nroot: x\n")) :=
  ⟨by decide, by decide,
   parseFrontmatter_malformed (lit "---\nroot: x\n") (by decide)
     (Or.inr (Or.inr (by decide)))⟩

/-- Claim C4, counterexample: an unterminated block whose input carries a
trailing newline does not come back byte-for-byte — the returned text is
the trimmed input. -/
theorem parseFrontmatter_malformed_not_identity :
    (parseFrontmatter (lit "---\nroot: x\n")).2 ≠ lit "---\nroot: x\n" := by decide

/-- Claim C7 (amended): for a well-formed frontmatter block, the parse
yields the body with both delimiter lines and the lines between them
removed, and a root equal to the written value with a single trailing
slash removed (`strings.TrimSuffix`, `parser.go:91`) — so the root keeps a
trailing slash whenever the written value ends in two or more. -/
theorem parseFrontmatter_wellformed (r body : Str)
    (hrne : r ≠ []) (hrt : trimSpace r = r) (hrnl : ∀ c ∈ r, c ≠ '\n')
    (hbt : trimSpace body = body) (hbne : body ≠ []) :
    parseFrontmatter (lit "---\nroot: " ++ r ++ lit "\n---\n" ++ body) =
      ({ root := trimSuffix (lit "/") r, headers := [] }, body) := by
  have htrim : trimSpace (lit "---\nroot: " ++ r ++ lit "\n---\n" ++ body) =
      lit "---\nroot: " ++ r ++ lit "\n---\n" ++ body :=
    trimSpace_concat '-' (lit "--\nroot: " ++ r ++ lit "\n---\n") body (by decide) hbt hbne
  have hcontent : lit "---\nroot: " ++ r ++ lit "\n---\n" ++ body =
      lit "---" ++ '\n' :: ((lit "root: " ++ r) ++ '\n' :: (lit "---" ++ '\n' :: body)) := by
    rw [List.append_assoc, List.append_assoc]
    rfl
  have hrootline : ∀ c ∈ lit "root: " ++ r, c ≠ '\n' := by
    have hconc : ∀ c ∈ lit "root: ", c ≠ '\n' := by decide
    intro c hc
    rcases List.mem_append.mp hc with h | h
    · exact hconc c h
    · exact hrnl c h
  have hlines : splitOnChar '\n' (lit "---\nroot: " ++ r ++ lit "\n---\n" ++ body) =
      lit "---" :: (lit "root: " ++ r) :: lit "---" :: splitOnChar '\n' body := by
    rw [hcontent, splitOnChar_append '\n' (lit "---") _ (by decide),
      splitOnChar_append '\n' (lit "root: " ++ r) _ hrootline,
      splitOnChar_append '\n' (lit "---") _ (by decide)]
  have hA2trim : trimSpace (lit "root: " ++ r) = lit "root: " ++ r :=
    trimSpace_concat 'r' (lit "oot: ") r (by decide) hrt hrne
  have hA2ne : trimSpace (lit "root: " ++ r) ≠ lit "---" := by
    rw [hA2trim]
    intro h
    have hlen := congrArg List.length h
    rw [List.length_append] at hlen
    have h6 : (lit "root: ").length = 6 := by decide
    have h3 : (lit "---").length = 3 := by decide
    omega
  have hdash : trimSpace (lit "---") = lit "---" := by decide
  have hfind : findClosing 1 ((lit "root: " ++ r) :: lit "---" :: splitOnChar '\n' body) =
      some 2 := by
    simp only [findClosing]
    rw [if_neg hA2ne, if_pos hdash]
  have hpre : (lit "---").isPrefixOf
      (lit "---\nroot: " ++ r ++ lit "\n---\n" ++ body) = true := by
    rw [hcontent]
    exact List.isPrefixOf_iff_prefix.mpr (List.prefix_append _ _)
  have hsp : trimSpace (' ' :: r) = r := by
    unfold trimSpace
    rw [List.dropWhile_cons, if_pos (by decide), dropWhile_eq_self_of_trim hrt,
      reverse_dropWhile_eq_of_trim hrt, List.reverse_reverse]
  simp only [parseFrontmatter]
  rw [htrim, if_neg (not_not_intro hpre), hlines]
  rw [if_neg (by simp [hdash] : ¬ _)]
  simp only [List.drop_succ_cons, List.drop_zero]
  rw [hfind]
  have hstep : fmLine ({ root := [], headers := [] }, false) (lit "root: " ++ r) =
      ({ root := trimSuffix (lit "/") r, headers := [] }, false) := by
    simp only [fmLine, hA2trim]
    rw [if_neg (by intro hcontra; exact hrne (List.append_eq_nil.mp hcontra).2),
      if_pos (by rfl)]
    have hdrop : trimPrefix (lit "root:") (lit "root: " ++ r) = ' ' :: r := by
      unfold trimPrefix
      rw [if_pos (by rfl)]
      rfl
    rw [hdrop, hsp]
  simp only [List.take_succ_cons, List.take_zero, List.drop_succ_cons, List.drop_zero,
    List.foldl_cons, List.foldl_nil, hstep]
  rw [joinChar_splitOnChar]

/-- Claim C7, witness for `parseFrontmatter_wellformed` at a concrete
block. -/
theorem parseFrontmatter_wellformed_witness :
    (lit "https://a" ≠ ([] : Str)) ∧ trimSpace (lit "https://a") = lit "https://a" ∧
    (∀ c ∈ lit "https://a", c ≠ '\n') ∧ trimSpace (lit "x") = lit "x" ∧
    parseFrontmatter (lit "---\nroot: " ++ lit "https://a" ++ lit "\n---\n" ++ lit "x") =
      ({ root := trimSuffix (lit "/") (lit "https://a"), headers := [] }, lit "x") :=
  ⟨by decide, by decide, by decide, by decide,
   parseFrontmatter_wellformed (lit "https://a") (lit "x") (by decide) (by decide)
     (by decide) (by decide) (by decide)⟩

/-- Claim C7, counterexample: a root written with a doubled trailing slash
keeps one of them — the parsed root ends in a slash, refuting "no trailing
slash for every root value written". -/
theorem parseFrontmatter_root_trailing_slash :
    (parseFrontmatter (lit "---\nroot: https://a//\n---\nx")).1.root = lit "https://a/" ∧
    (lit "/").isSuffixOf (parseFrontmatter (lit "---\nroot: https://a//\n---\nx")).1.root =
      true := by
  refine ⟨by decide, by decide⟩

end Marcus
